import Mathlib

/-!
Shallow embedding of the qoi codec (src/src/lib.rs, src/src/decode.rs,
src/src/encode.rs) and verification of its specification claims.

Byte streams are modelled as lists of naturals (each element a byte value);
a Rust reader is a function consuming a prefix of the list and returning the
remainder, with read failures mapped to the IoError case. Output sinks are
modelled as the list of bytes written.
-/

namespace Qoi

/-- A pixel, always carried as 4 channels internally (src/src/lib.rs Header docs).
Channel values are byte values. -/
structure Pixel where
  r : Nat
  g : Nat
  b : Nat
  a : Nat
deriving DecidableEq, Repr

/-- Channel count of the stream, src/src/lib.rs enum Channels. -/
inductive Channels where
  | Rgb
  | Rgba
deriving DecidableEq, Repr

/-- Numeric tag of a Channels value (the repr(u8) discriminant, Rgb = 3, Rgba = 4). -/
def Channels.toByte : Channels → Nat
  | .Rgb => 3
  | .Rgba => 4

/-- Channels::from_byte, src/src/lib.rs. -/
def Channels.from_byte (byte : Nat) : Option Channels :=
  if byte = 3 then some .Rgb
  else if byte = 4 then some .Rgba
  else none

/-- Colorspace tag, src/src/lib.rs enum Colorspace. -/
inductive Colorspace where
  | Srgb
  | Rgb
deriving DecidableEq, Repr

/-- Numeric tag of a Colorspace value (Srgb = 0, Rgb = 1). -/
def Colorspace.toByte : Colorspace → Nat
  | .Srgb => 0
  | .Rgb => 1

/-- Colorspace::from_byte, src/src/lib.rs. -/
def Colorspace.from_byte (byte : Nat) : Option Colorspace :=
  if byte = 0 then some .Srgb
  else if byte = 1 then some .Rgb
  else none

/-- Header, src/src/lib.rs. Width and height are u32 values (kept as Nat,
below 2^32 whenever produced from real byte streams). -/
structure Header where
  width : Nat
  height : Nat
  channels : Channels
  colorspace : Colorspace
deriving DecidableEq, Repr

/-- The hashing function used by QOI, src/src/lib.rs qoi_hash. -/
def qoi_hash (p : Pixel) : Nat :=
  (p.r * 3 + p.g * 5 + p.b * 7 + p.a * 11) % 64

/-- Decode errors, src/src/decode.rs enum DecodeError (the io::Error payload
carried by IoError is dropped). -/
inductive DecodeError where
  | IoError
  | InvalidHeader
  | InvalidNumberOfChannels
  | InvalidColorspace
  | InvalidEofSequence
deriving DecidableEq, Repr

/-- Big-endian u32 from four bytes (u32::from_be_bytes). -/
def u32_from_be (b0 b1 b2 b3 : Nat) : Nat :=
  ((b0 * 256 + b1) * 256 + b2) * 256 + b3

/-- Big-endian bytes of a u32 (u32::to_be_bytes). -/
def u32_to_be (n : Nat) : List Nat :=
  [n / 16777216 % 256, n / 65536 % 256, n / 256 % 256, n % 256]

/-- decode_header, src/src/decode.rs lines 45-57. Reads the 4 magic bytes, then
width, height, channels byte and colorspace byte in this order; a short read at
any point is an IoError. Note the source maps a bad channels byte to
InvalidColorspace (the ok_or argument on line 52), not InvalidNumberOfChannels. -/
def decode_header (l : List Nat) : Except DecodeError (Header × List Nat) :=
  match l with
  | m0 :: m1 :: m2 :: m3 :: l1 =>
    if m0 = 113 ∧ m1 = 111 ∧ m2 = 105 ∧ m3 = 102 then
      match l1 with
      | w0 :: w1 :: w2 :: w3 :: h0 :: h1 :: h2 :: h3 :: l2 =>
        match l2 with
        | cb :: l3 =>
          match Channels.from_byte cb with
          | some channels =>
            match l3 with
            | sb :: l4 =>
              match Colorspace.from_byte sb with
              | some colorspace =>
                .ok ({ width := u32_from_be w0 w1 w2 w3,
                       height := u32_from_be h0 h1 h2 h3,
                       channels := channels, colorspace := colorspace }, l4)
              | none => .error .InvalidColorspace
            | [] => .error .IoError
          | none => .error .InvalidColorspace
        | [] => .error .IoError
      | _ => .error .IoError
    else .error .InvalidHeader
  | _ => .error .IoError

/-- Chunk, src/src/decode.rs lines 59-77. Signed deltas are carried as Int
(i8 values in the source). -/
inductive Chunk where
  | Rgb (r g b : Nat)
  | Rgba (r g b a : Nat)
  | Index (idx : Nat)
  | Diff (dr dg db : Int)
  | Luma (dg dr_dg db_dg : Int)
  | Run (run : Nat)
deriving DecidableEq, Repr

/-- Top two bits of a byte, src/src/decode.rs msb2. -/
def msb2 (x : Nat) : Nat := x / 64 % 4

/-- Low six bits of a byte, src/src/decode.rs lsb6. -/
def lsb6 (x : Nat) : Nat := x % 64

/-- read_chunk, src/src/decode.rs lines 79-107. Reads one opcode byte and the
payload bytes the opcode needs; payloads are matched as explicit list prefixes
(read_array is a sequence of byte reads). -/
def read_chunk (l : List Nat) : Except DecodeError (Chunk × List Nat) :=
  match l with
  | [] => .error .IoError
  | byte0 :: l1 =>
    if byte0 = 254 then
      match l1 with
      | r :: g :: b :: l2 => .ok (.Rgb r g b, l2)
      | _ => .error .IoError
    else if byte0 = 255 then
      match l1 with
      | r :: g :: b :: a :: l2 => .ok (.Rgba r g b a, l2)
      | _ => .error .IoError
    else if msb2 byte0 = 0 then
      .ok (.Index (lsb6 byte0), l1)
    else if msb2 byte0 = 1 then
      .ok (.Diff ((byte0 / 16 % 4 : Int) - 2) ((byte0 / 4 % 4 : Int) - 2)
            ((byte0 % 4 : Int) - 2), l1)
    else if msb2 byte0 = 2 then
      match l1 with
      | byte1 :: l2 =>
        .ok (.Luma ((lsb6 byte0 : Int) - 32) ((byte1 / 16 % 16 : Int) - 8)
              ((byte1 % 16 : Int) - 8), l2)
      | [] => .error .IoError
    else
      .ok (.Run (lsb6 byte0 + 1), l1)

/-- DecoderState, src/src/decode.rs lines 109-116. The index array is a list of
64 pixel slots. -/
structure DecoderState where
  header : Header
  index_array : List Pixel
  previous_pixel : Pixel
  n_pixels : Nat
deriving DecidableEq, Repr

/-- DecoderState::new, src/src/decode.rs lines 118-127. -/
def DecoderState.new (header : Header) : DecoderState :=
  { header := header
    index_array := List.replicate 64 ⟨0, 0, 0, 0⟩
    previous_pixel := ⟨0, 0, 0, 255⟩
    n_pixels := 0 }

/-- u8::wrapping_add_signed of a byte and an i8 delta. -/
def wrapping_add_signed (u : Nat) (i : Int) : Nat :=
  (((u : Int) + i) % 256).toNat

/-- Bytes a pixel contributes to the output sink: 3 bytes for Rgb streams
(alpha dropped), 4 for Rgba (src/src/decode.rs lines 154-157 and 167-170). -/
def write_pixel (ch : Channels) (p : Pixel) : List Nat :=
  match ch with
  | .Rgb => [p.r, p.g, p.b]
  | .Rgba => [p.r, p.g, p.b, p.a]

/-- Common tail of decode_chunk for every non-run chunk, src/src/decode.rs
lines 163-170: store the pixel in the cache at its hash slot, make it the
previous pixel, advance the pixel count, write it to the output. -/
def decode_chunk_finish (state : DecoderState) (current : Pixel) (l1 : List Nat) :
    Except DecodeError (DecoderState × List Nat × List Nat) :=
  .ok ({ state with
           index_array := state.index_array.set (qoi_hash current) current,
           previous_pixel := current,
           n_pixels := state.n_pixels + 1 },
       write_pixel state.header.channels current, l1)

/-- decode_chunk, src/src/decode.rs lines 130-172. Returns the updated state,
the bytes written to the output sink, and the remaining input. The Run arm
returns early: it writes previous_pixel run times and advances n_pixels but
touches neither the index array nor previous_pixel (lines 152-161). -/
def decode_chunk (state : DecoderState) (l : List Nat) :
    Except DecodeError (DecoderState × List Nat × List Nat) :=
  match read_chunk l with
  | .error e => .error e
  | .ok (chunk, l1) =>
    match chunk with
    | .Run run =>
      .ok ({ state with n_pixels := state.n_pixels + run },
           List.flatten (List.replicate run (write_pixel state.header.channels state.previous_pixel)),
           l1)
    | .Rgb r g b =>
      decode_chunk_finish state ⟨r, g, b, state.previous_pixel.a⟩ l1
    | .Rgba r g b a =>
      decode_chunk_finish state ⟨r, g, b, a⟩ l1
    | .Index idx =>
      decode_chunk_finish state (state.index_array.getD idx ⟨0, 0, 0, 0⟩) l1
    | .Diff dr dg db =>
      decode_chunk_finish state
        ⟨wrapping_add_signed state.previous_pixel.r dr,
         wrapping_add_signed state.previous_pixel.g dg,
         wrapping_add_signed state.previous_pixel.b db,
         state.previous_pixel.a⟩ l1
    | .Luma dg dr_dg db_dg =>
      decode_chunk_finish state
        ⟨wrapping_add_signed state.previous_pixel.r (dr_dg + dg),
         wrapping_add_signed state.previous_pixel.g dg,
         wrapping_add_signed state.previous_pixel.b (db_dg + dg),
         state.previous_pixel.a⟩ l1

/-- verify_eof_sequence, src/src/decode.rs lines 174-182: read 7 bytes and
compare with zeros, then read 1 byte and compare with 1. -/
def verify_eof_sequence (l : List Nat) : Except DecodeError (Unit × List Nat) :=
  match l with
  | z0 :: z1 :: z2 :: z3 :: z4 :: z5 :: z6 :: l1 =>
    if z0 = 0 ∧ z1 = 0 ∧ z2 = 0 ∧ z3 = 0 ∧ z4 = 0 ∧ z5 = 0 ∧ z6 = 0 then
      match l1 with
      | b :: l2 => if b = 1 then .ok ((), l2) else .error .InvalidEofSequence
      | [] => .error .IoError
    else .error .InvalidEofSequence
  | _ => .error .IoError

/-- The while loop of decode, src/src/decode.rs lines 188-190. The fuel
argument only bounds the recursion; since every chunk advances n_pixels by at
least one, fuel equal to the remaining pixel count is never exhausted, so the
first arm is unreachable for the call decode makes. -/
def decode_loop : Nat → Nat → DecoderState → List Nat →
    Except DecodeError (DecoderState × List Nat × List Nat)
  | fuel, n_target, state, l =>
    if state.n_pixels < n_target then
      match fuel with
      | 0 => .error .IoError
      | fuel' + 1 =>
        match decode_chunk state l with
        | .error e => .error e
        | .ok (s2, out, l2) =>
          match decode_loop fuel' n_target s2 l2 with
          | .error e => .error e
          | .ok (s3, out2, l3) => .ok (s3, out ++ out2, l3)
    else .ok (state, [], l)

/-- decode, src/src/decode.rs lines 184-193. Returns the header, the bytes
written to the output sink, and the unread remainder of the input. The pixel
target is the u32 product width * height as the source computes it (wrapping
multiplication, hence the explicit modulus). -/
def decode (l : List Nat) : Except DecodeError (Header × List Nat × List Nat) :=
  match decode_header l with
  | .error e => .error e
  | .ok (header, l1) =>
    let n_pixels := header.width * header.height % 4294967296
    match decode_loop n_pixels n_pixels (DecoderState.new header) l1 with
    | .error e => .error e
    | .ok (_, out, l2) =>
      match verify_eof_sequence l2 with
      | .error e => .error e
      | .ok (_, l3) => .ok (header, out, l3)

/-! Wrappers around decode, src/src/decode.rs lines 195-235. Each calls
unwrap() on the inner decode result, so a decode error panics instead of being
returned; a panic is modelled as none. File-based wrappers are modelled on the
byte contents of an already opened file. -/

/-- decode_to_vec, src/src/decode.rs lines 195-200. -/
def decode_to_vec (input : List Nat) : Option (Except DecodeError (List Nat × Header)) :=
  match decode input with
  | .ok (header, data, _) => some (.ok (data, header))
  | .error _ => none

/-- decode_from_data, src/src/decode.rs lines 202-206. -/
def decode_from_data (data : List Nat) : Option (Except DecodeError (List Nat × Header)) :=
  match decode data with
  | .ok (header, output, _) => some (.ok (output, header))
  | .error _ => none

/-- decode_from_file, src/src/decode.rs lines 208-221, on the bytes of the
opened file; only the returned Result is modelled (pixels go to the sink). -/
def decode_from_file (contents : List Nat) : Option (Except DecodeError Header) :=
  match decode contents with
  | .ok (header, _, _) => some (.ok header)
  | .error _ => none

/-- decode_from_file_to_vec, src/src/decode.rs lines 223-235. -/
def decode_from_file_to_vec (contents : List Nat) :
    Option (Except DecodeError (List Nat × Header)) :=
  match decode contents with
  | .ok (header, data, _) => some (.ok (data, header))
  | .error _ => none

/-! Encoder, src/src/encode.rs. The output sink is modelled as the list of
bytes written; sink write errors (the io::Result failures) are out of scope,
so the encoding functions are total. The pixel iterator is modelled as the
list of pixels not yet consumed. -/

/-- u8_to_i8, src/src/encode.rs lines 71-74: reinterpret a byte as a signed
i8 value. -/
def u8_to_i8 (x : Nat) : Int :=
  if x < 128 then (x : Int) else (x : Int) - 256

/-- u8::wrapping_sub on byte values. -/
def wrapping_sub (a b : Nat) : Nat :=
  (a + 256 - b % 256) % 256

/-- Encoder state, src/src/encode.rs lines 76-95 (struct Encoder without the
output sink; last_op_was_index is dead state, kept for fidelity). -/
structure EncoderState where
  header : Header
  index_array : List Pixel
  previous_pixel : Pixel
  last_op_was_index : Bool
deriving DecidableEq, Repr

/-- Encoder::new, src/src/encode.rs lines 87-95. -/
def EncoderState.new (header : Header) : EncoderState :=
  { header := header
    index_array := List.replicate 64 ⟨0, 0, 0, 0⟩
    previous_pixel := ⟨0, 0, 0, 255⟩
    last_op_was_index := false }

/-- Encoder::encode_header, src/src/encode.rs lines 97-106: magic, width and
height big-endian, channels tag byte, colorspace tag byte. -/
def encode_header_bytes (h : Header) : List Nat :=
  [113, 111, 105, 102] ++ u32_to_be h.width ++ u32_to_be h.height
    ++ [h.channels.toByte] ++ [h.colorspace.toByte]

/-- The while loop of Encoder::try_run, src/src/encode.rs lines 149-155:
consume input pixels equal to the run pixel, incrementing run_count and
stopping once it reaches 62. -/
def run_loop (run_count : Nat) (pixel : Pixel) : List Pixel → Nat × List Pixel
  | [] => (run_count, [])
  | p :: rest =>
    if p = pixel then
      if run_count + 1 ≥ 62 then (run_count + 1, rest)
      else run_loop (run_count + 1) pixel rest
    else (run_count, p :: rest)

/-- Encoder::try_run, src/src/encode.rs lines 141-158. Returns the run chunk
byte and the input pixels left after the greedy consumption. -/
def try_run (previous_pixel pixel : Pixel) (pixels : List Pixel) :
    Option (Nat × List Pixel) :=
  if pixel = previous_pixel then
    let rc := run_loop 1 pixel pixels
    some (192 + (rc.1 - 1), rc.2)
  else none

/-- Encoder::try_encode_with_op_index, src/src/encode.rs lines 160-168. -/
def try_encode_with_op_index (index_array : List Pixel) (pixel : Pixel) : Option Nat :=
  let index := qoi_hash pixel
  if index_array.getD index ⟨0, 0, 0, 0⟩ = pixel then some index else none

/-- The inner function d of try_encode_with_op_diff, src/src/encode.rs lines
171-179: the wrapping byte difference reinterpreted as i8, accepted when it
lies in -2..=1 and shifted by 2. -/
def diff_d (current previous : Nat) : Option Nat :=
  let d := u8_to_i8 (wrapping_sub current previous)
  if -2 ≤ d ∧ d ≤ 1 then some (d + 2).toNat else none

/-- Encoder::try_encode_with_op_diff, src/src/encode.rs lines 170-185. The
packed byte 0b01 << 6 | dr << 4 | dg << 2 | db with each field below 4. -/
def try_encode_with_op_diff (previous_pixel pixel : Pixel) : Option Nat :=
  match diff_d pixel.r previous_pixel.r with
  | none => none
  | some dr =>
    match diff_d pixel.g previous_pixel.g with
    | none => none
    | some dg =>
      match diff_d pixel.b previous_pixel.b with
      | none => none
      | some db => some (64 + dr * 16 + dg * 4 + db)

/-- i8::checked_sub: the exact difference when it fits in i8, none on
overflow. -/
def checked_sub_i8 (a b : Int) : Option Int :=
  if -128 ≤ a - b ∧ a - b ≤ 127 then some (a - b) else none

/-- Encoder::try_encode_with_op_luma, src/src/encode.rs lines 187-206. -/
def try_encode_with_op_luma (previous_pixel pixel : Pixel) : Option (List Nat) :=
  let dr := u8_to_i8 (wrapping_sub pixel.r previous_pixel.r)
  let dg := u8_to_i8 (wrapping_sub pixel.g previous_pixel.g)
  let db := u8_to_i8 (wrapping_sub pixel.b previous_pixel.b)
  match checked_sub_i8 dr dg with
  | none => none
  | some drdg =>
    match checked_sub_i8 db dg with
    | none => none
    | some dbdg =>
      if (-32 ≤ dg ∧ dg ≤ 31) ∧ (-8 ≤ drdg ∧ drdg ≤ 7) ∧ (-8 ≤ dbdg ∧ dbdg ≤ 7) then
        some [128 + (dg + 32).toNat, (drdg + 8).toNat * 16 + (dbdg + 8).toNat]
      else none

/-- Encoder::try_encode_with_op_rgb, src/src/encode.rs lines 209-211. -/
def try_encode_with_op_rgb (previous_pixel pixel : Pixel) : Option (List Nat) :=
  if pixel.a = previous_pixel.a then some [254, pixel.r, pixel.g, pixel.b] else none

/-- Encoder::encode_with_op_rgba, src/src/encode.rs lines 214-216. -/
def encode_with_op_rgba (pixel : Pixel) : List Nat :=
  [255, pixel.r, pixel.g, pixel.b, pixel.a]

/-- The opcode selection chain of Encoder::encode_chunk, src/src/encode.rs
lines 118-135: the bytes written for the current pixel and the input pixels
left after it (only try_run consumes extra pixels). -/
def encode_chunk_bytes (st : EncoderState) (pixel : Pixel) (rest : List Pixel) :
    List Nat × List Pixel :=
  match try_run st.previous_pixel pixel rest with
  | some br => ([br.1], br.2)
  | none =>
    if pixel.a ≠ st.previous_pixel.a then (encode_with_op_rgba pixel, rest)
    else
      match try_encode_with_op_index st.index_array pixel with
      | some byte => ([byte], rest)
      | none =>
        match try_encode_with_op_diff st.previous_pixel pixel with
        | some byte => ([byte], rest)
        | none =>
          match try_encode_with_op_luma st.previous_pixel pixel with
          | some bytes => (bytes, rest)
          | none =>
            match try_encode_with_op_rgb st.previous_pixel pixel with
            | some bytes => (bytes, rest)
            | none => (encode_with_op_rgba pixel, rest)

/-- Encoder::encode_chunk, src/src/encode.rs lines 113-139: emit the selected
chunk bytes, then set previous_pixel to the current pixel and store it in the
cache at its hash slot (lines 136-137, run included). -/
def encode_chunk (st : EncoderState) (pixel : Pixel) (rest : List Pixel) :
    EncoderState × List Nat × List Pixel :=
  let br := encode_chunk_bytes st pixel rest
  ({ st with
       previous_pixel := pixel,
       index_array := st.index_array.set (qoi_hash pixel) pixel },
   br.1, br.2)

/-- The while loop of encode, src/src/encode.rs lines 19-21. Every iteration
consumes at least the leading pixel, so fuel equal to the number of pixels is
never exhausted and the middle arm is unreachable for the call encode makes. -/
def encode_loop : Nat → EncoderState → List Pixel → List Nat
  | _, _, [] => []
  | 0, _, _ :: _ => []
  | fuel + 1, st, pixel :: rest =>
    let r := encode_chunk st pixel rest
    r.2.1 ++ encode_loop fuel r.1 r.2.2

/-- encode, src/src/encode.rs lines 11-24: header bytes, then the chunk
stream, then Encoder::finish (7 zero bytes and a 1 byte, lines 218-222). -/
def encode (header : Header) (pixels : List Pixel) : List Nat :=
  encode_header_bytes header
    ++ encode_loop pixels.length (EncoderState.new header) pixels
    ++ [0, 0, 0, 0, 0, 0, 0, 1]

/-- The chunk list of slice::chunks_exact n (the stable array_chunks
implementation, src/src/encode.rs lines 62-69): the first length / n complete
n-chunks, the remainder dropped. Recursion is over the chunk count. -/
def chunks_exact_aux (n : Nat) : Nat → List Nat → List (List Nat)
  | 0, _ => []
  | k + 1, l => l.take n :: chunks_exact_aux n k (l.drop n)

/-- chunks_exact over a byte slice. -/
def chunks_exact (n : Nat) (l : List Nat) : List (List Nat) :=
  chunks_exact_aux n (l.length / n) l

/-- The pixel sequence encode_from_slice feeds to encode, src/src/encode.rs
lines 26-39: 3-byte chunks widened with alpha 255 for Rgb, 4-byte chunks
verbatim for Rgba. -/
def pixels_of_slice (ch : Channels) (slice : List Nat) : List Pixel :=
  match ch with
  | .Rgb => (chunks_exact 3 slice).map
      (fun c => ⟨c.getD 0 0, c.getD 1 0, c.getD 2 0, 255⟩)
  | .Rgba => (chunks_exact 4 slice).map
      (fun c => ⟨c.getD 0 0, c.getD 1 0, c.getD 2 0, c.getD 3 0⟩)

/-- encode_from_slice, src/src/encode.rs lines 26-39. -/
def encode_from_slice (header : Header) (slice : List Nat) : List Nat :=
  encode header (pixels_of_slice header.channels slice)

/-- Number of leading elements of a list equal to p. Measuring helper used to
state the greedy run property; not part of the source. -/
def leadRun (p : Pixel) : List Pixel → Nat
  | [] => 0
  | q :: rest => if q = p then leadRun p rest + 1 else 0

/-!
Theorems. Each claim of the specification gets one theorem below.
-/

/-- C1: the claimed exact round-trip fails. For the 4-channel 3-by-1 header
and the pixel buffer (0,0,0,255), (1,0,0,255), (0,0,0,255), encoding then
decoding succeeds but returns the buffer with last pixel (0,0,0,0): the
encoder emits Run then Diff then Index 53, but the decoder's Run arm returns
early without storing (0,0,0,255) in cache slot 53, so the Index chunk reads
the zero pixel still in that slot. -/
theorem c1_roundtrip_failure :
    decode (encode ⟨3, 1, .Rgba, .Srgb⟩
        [⟨0, 0, 0, 255⟩, ⟨1, 0, 0, 255⟩, ⟨0, 0, 0, 255⟩]) =
      .ok (⟨3, 1, .Rgba, .Srgb⟩,
           [0, 0, 0, 255, 1, 0, 0, 255, 0, 0, 0, 0], []) ∧
    ([0, 0, 0, 255, 1, 0, 0, 255, 0, 0, 0, 0] : List Nat) ≠
      (([⟨0, 0, 0, 255⟩, ⟨1, 0, 0, 255⟩, ⟨0, 0, 0, 255⟩] : List Pixel).map
        (write_pixel .Rgba)).flatten :=
  ⟨rfl, by decide⟩

/-- C2: applying a Run chunk does write previous_pixel run-length times,
leaves previous_pixel unchanged and advances the pixel count by the run
length, but it does NOT refresh the cache slot at previous_pixel's hash: on
the fresh decoder state (previous_pixel (0,0,0,255), hash slot 53, zeroed
cache) the Run-3 chunk byte 194 leaves the index array untouched, slot 53
still holding the zero pixel. -/
theorem c2_run_chunk_skips_cache_refresh :
    decode_chunk (DecoderState.new ⟨3, 1, .Rgba, .Srgb⟩) [194] =
      .ok ({ DecoderState.new ⟨3, 1, .Rgba, .Srgb⟩ with n_pixels := 3 },
           [0, 0, 0, 255, 0, 0, 0, 255, 0, 0, 0, 255], []) ∧
    qoi_hash (DecoderState.new ⟨3, 1, .Rgba, .Srgb⟩).previous_pixel = 53 ∧
    ({ DecoderState.new ⟨3, 1, .Rgba, .Srgb⟩ with n_pixels := 3 }).index_array.getD 53 ⟨0, 0, 0, 0⟩ ≠
      (DecoderState.new ⟨3, 1, .Rgba, .Srgb⟩).previous_pixel :=
  ⟨rfl, rfl, by decide⟩

/-- C3: a channels byte other than 3 or 4 does fail header decoding, but with
the invalid-colorspace error kind, not the invalid-channels one: on a stream
with valid magic, width 1, height 1 and channels byte 5 (and nothing after
it, so any further read would have been an IoError), decode_header returns
InvalidColorspace, which is a distinct constructor from
InvalidNumberOfChannels. -/
theorem c3_bad_channels_byte_gives_colorspace_error :
    decode_header [113, 111, 105, 102, 0, 0, 0, 1, 0, 0, 0, 1, 5] =
      .error DecodeError.InvalidColorspace ∧
    DecodeError.InvalidColorspace ≠ DecodeError.InvalidNumberOfChannels :=
  ⟨rfl, by decide⟩

/-- C9: the four public decode wrappers unwrap the inner decode result: none
of them ever returns an Err value, and each panics (modelled as none) exactly
when the inner decode fails. -/
theorem c9_wrappers_never_return_err (data : List Nat) :
    (∀ e, decode_to_vec data ≠ some (.error e)) ∧
    (∀ e, decode_from_data data ≠ some (.error e)) ∧
    (∀ e, decode_from_file data ≠ some (.error e)) ∧
    (∀ e, decode_from_file_to_vec data ≠ some (.error e)) ∧
    ((∃ e, decode data = .error e) ↔ decode_to_vec data = none) ∧
    ((∃ e, decode data = .error e) ↔ decode_from_data data = none) ∧
    ((∃ e, decode data = .error e) ↔ decode_from_file data = none) ∧
    ((∃ e, decode data = .error e) ↔ decode_from_file_to_vec data = none) := by
  cases h : decode data with
  | error e =>
    simp [decode_to_vec, decode_from_data, decode_from_file, decode_from_file_to_vec, h]
  | ok v =>
    obtain ⟨hdr, out, rest⟩ := v
    simp [decode_to_vec, decode_from_data, decode_from_file, decode_from_file_to_vec, h]

/-- The try_run while loop consumes greedily: starting from run_count rc at
most 61, it stops at run count min 62 (rc + number of leading copies), having
dropped exactly the consumed copies from the input. -/
theorem run_loop_spec (p : Pixel) (l : List Pixel) :
    ∀ rc, 1 ≤ rc → rc ≤ 61 →
      run_loop rc p l =
        (min 62 (rc + leadRun p l), l.drop (min 62 (rc + leadRun p l) - rc)) := by
  induction l with
  | nil =>
    intro rc h1 h61
    have hm : min 62 (rc + leadRun p []) = rc := by simp [leadRun]; omega
    simp [run_loop, hm]
  | cons q rest ih =>
    intro rc h1 h61
    by_cases hq : q = p
    · subst hq
      have hlead : leadRun q (q :: rest) = leadRun q rest + 1 := by simp [leadRun]
      by_cases hbig : rc + 1 ≥ 62
      · have hm : min 62 (rc + leadRun q (q :: rest)) = 62 := by omega
        have hstep : run_loop rc q (q :: rest) = (rc + 1, rest) := by
          simp [run_loop, hbig]
        rw [hstep, hm]
        rw [show rc + 1 = 62 from by omega, show 62 - rc = 1 from by omega]
        rfl
      · have hrec := ih (rc + 1) (by omega) (by omega)
        have hstep : run_loop rc q (q :: rest) = run_loop (rc + 1) q rest := by
          simp [run_loop, hbig]
        rw [hstep, hrec]
        rw [show rc + leadRun q (q :: rest) = rc + 1 + leadRun q rest from by omega]
        have hdrop : min 62 (rc + 1 + leadRun q rest) - rc =
            (min 62 (rc + 1 + leadRun q rest) - (rc + 1)) + 1 := by omega
        rw [hdrop]
        rfl
    · have hm : min 62 (rc + leadRun p (q :: rest)) = rc := by
        simp [leadRun, hq]; omega
      simp [run_loop, hq, hm]

/-- C4: when the current pixel equals previous_pixel the encoder emits a Run
chunk before any other rule, greedily consuming subsequent equal pixels up to
a total run length of 62; the emitted byte is 0b11 << 6 plus run_length - 1,
which never collides with the RGB (254) or RGBA (255) opcodes. -/
theorem c4_run_first_greedy_62 (st : EncoderState) (pixel : Pixel)
    (rest : List Pixel) (h : pixel = st.previous_pixel) :
    (encode_chunk st pixel rest).2.1 =
      [192 + (min 62 (1 + leadRun pixel rest) - 1)] ∧
    (encode_chunk st pixel rest).2.2 =
      rest.drop (min 62 (1 + leadRun pixel rest) - 1) ∧
    1 ≤ min 62 (1 + leadRun pixel rest) ∧
    min 62 (1 + leadRun pixel rest) ≤ 62 ∧
    192 + (min 62 (1 + leadRun pixel rest) - 1) ≠ 254 ∧
    192 + (min 62 (1 + leadRun pixel rest) - 1) ≠ 255 := by
  subst h
  have hrun := run_loop_spec st.previous_pixel rest 1 (by omega) (by omega)
  refine ⟨?_, ?_, by omega, by omega, by omega, by omega⟩ <;>
    simp [encode_chunk, encode_chunk_bytes, try_run, hrun]

/-- C4 witness: on the fresh encoder state (previous pixel (0,0,0,255)), a
current pixel equal to it with three more copies following is emitted as the
single Run byte 195 (run length 4), consuming the three copies. -/
theorem c4_run_first_greedy_62_witness :
    (encode_chunk (EncoderState.new ⟨4, 1, .Rgba, .Srgb⟩)
        ⟨0, 0, 0, 255⟩ [⟨0, 0, 0, 255⟩, ⟨0, 0, 0, 255⟩, ⟨0, 0, 0, 255⟩]).2.1 = [195] ∧
    (encode_chunk (EncoderState.new ⟨4, 1, .Rgba, .Srgb⟩)
        ⟨0, 0, 0, 255⟩ [⟨0, 0, 0, 255⟩, ⟨0, 0, 0, 255⟩, ⟨0, 0, 0, 255⟩]).2.2 = [] := by
  have h := c4_run_first_greedy_62 (EncoderState.new ⟨4, 1, .Rgba, .Srgb⟩)
    ⟨0, 0, 0, 255⟩ [⟨0, 0, 0, 255⟩, ⟨0, 0, 0, 255⟩, ⟨0, 0, 0, 255⟩] rfl
  exact ⟨h.1.trans (by decide), h.2.1.trans (by decide)⟩

/-- C5: when the current pixel's alpha differs from previous_pixel's alpha the
encoder emits an RGBA chunk, regardless of the r, g, b deltas, consuming no
further pixels. -/
theorem c5_alpha_change_forces_rgba (st : EncoderState) (pixel : Pixel)
    (rest : List Pixel) (h : pixel.a ≠ st.previous_pixel.a) :
    (encode_chunk st pixel rest).2.1 = encode_with_op_rgba pixel ∧
    (encode_chunk st pixel rest).2.2 = rest := by
  have hne : pixel ≠ st.previous_pixel := fun he => h (by rw [he])
  simp [encode_chunk, encode_chunk_bytes, try_run, hne, h]

/-- C5 witness: previous alpha 255, current pixel (0,0,1,254) with tiny rgb
deltas, still encoded as the RGBA chunk 255,0,0,1,254. -/
theorem c5_alpha_change_forces_rgba_witness :
    (encode_chunk (EncoderState.new ⟨1, 1, .Rgba, .Srgb⟩) ⟨0, 0, 1, 254⟩ []).2.1 =
      encode_with_op_rgba ⟨0, 0, 1, 254⟩ ∧
    encode_with_op_rgba ⟨0, 0, 1, 254⟩ = [255, 0, 0, 1, 254] :=
  ⟨(c5_alpha_change_forces_rgba (EncoderState.new ⟨1, 1, .Rgba, .Srgb⟩)
      ⟨0, 0, 1, 254⟩ [] (by decide)).1, rfl⟩

/-- The diff opcode attempt fails as soon as any channel's d fails. -/
theorem try_diff_none_of_channel (prev p : Pixel)
    (h : diff_d p.r prev.r = none ∨ diff_d p.g prev.g = none ∨
         diff_d p.b prev.b = none) :
    try_encode_with_op_diff prev p = none := by
  unfold try_encode_with_op_diff
  cases h1 : diff_d p.r prev.r <;> cases h2 : diff_d p.g prev.g <;>
    cases h3 : diff_d p.b prev.b <;> simp_all

/-- A channel whose signed wrapping delta is -3 or 2 fails the d check. -/
theorem diff_d_none_of_boundary (c pr : Nat)
    (h : u8_to_i8 (wrapping_sub c pr) = -3 ∨ u8_to_i8 (wrapping_sub c pr) = 2) :
    diff_d c pr = none := by
  rcases h with h | h <;> simp [diff_d, h]

/-- C6: for a pixel with unchanged alpha, no run and no cache hit, the
encoder emits a Diff chunk exactly when every signed wrapping channel delta
lies in -2..1; and when some channel's delta is -3 or 2 the diff attempt
fails and the emitted chunk is the Luma attempt's bytes when that succeeds,
the literal RGB chunk otherwise. -/
theorem c6_diff_range_boundary (st : EncoderState) (pixel : Pixel)
    (rest : List Pixel)
    (hne : pixel ≠ st.previous_pixel)
    (ha : pixel.a = st.previous_pixel.a)
    (hmiss : st.index_array.getD (qoi_hash pixel) ⟨0, 0, 0, 0⟩ ≠ pixel) :
    (((-2 ≤ u8_to_i8 (wrapping_sub pixel.r st.previous_pixel.r) ∧
        u8_to_i8 (wrapping_sub pixel.r st.previous_pixel.r) ≤ 1) ∧
      (-2 ≤ u8_to_i8 (wrapping_sub pixel.g st.previous_pixel.g) ∧
        u8_to_i8 (wrapping_sub pixel.g st.previous_pixel.g) ≤ 1) ∧
      (-2 ≤ u8_to_i8 (wrapping_sub pixel.b st.previous_pixel.b) ∧
        u8_to_i8 (wrapping_sub pixel.b st.previous_pixel.b) ≤ 1)) →
      ∃ byte, try_encode_with_op_diff st.previous_pixel pixel = some byte ∧
        (encode_chunk st pixel rest).2.1 = [byte]) ∧
    ((u8_to_i8 (wrapping_sub pixel.r st.previous_pixel.r) = -3 ∨
      u8_to_i8 (wrapping_sub pixel.r st.previous_pixel.r) = 2 ∨
      u8_to_i8 (wrapping_sub pixel.g st.previous_pixel.g) = -3 ∨
      u8_to_i8 (wrapping_sub pixel.g st.previous_pixel.g) = 2 ∨
      u8_to_i8 (wrapping_sub pixel.b st.previous_pixel.b) = -3 ∨
      u8_to_i8 (wrapping_sub pixel.b st.previous_pixel.b) = 2) →
      try_encode_with_op_diff st.previous_pixel pixel = none ∧
      (encode_chunk st pixel rest).2.1 =
        (match try_encode_with_op_luma st.previous_pixel pixel with
         | some bytes => bytes
         | none => [254, pixel.r, pixel.g, pixel.b])) := by
  have hidx : try_encode_with_op_index st.index_array pixel = none := by
    unfold try_encode_with_op_index
    rw [if_neg hmiss]
  constructor
  · rintro ⟨hr, hg, hb⟩
    have hdr : diff_d pixel.r st.previous_pixel.r =
        some (u8_to_i8 (wrapping_sub pixel.r st.previous_pixel.r) + 2).toNat := by
      simp [diff_d, hr.1, hr.2]
    have hdg : diff_d pixel.g st.previous_pixel.g =
        some (u8_to_i8 (wrapping_sub pixel.g st.previous_pixel.g) + 2).toNat := by
      simp [diff_d, hg.1, hg.2]
    have hdb : diff_d pixel.b st.previous_pixel.b =
        some (u8_to_i8 (wrapping_sub pixel.b st.previous_pixel.b) + 2).toNat := by
      simp [diff_d, hb.1, hb.2]
    refine ⟨64 + (u8_to_i8 (wrapping_sub pixel.r st.previous_pixel.r) + 2).toNat * 16 +
        (u8_to_i8 (wrapping_sub pixel.g st.previous_pixel.g) + 2).toNat * 4 +
        (u8_to_i8 (wrapping_sub pixel.b st.previous_pixel.b) + 2).toNat, ?_, ?_⟩
    · simp [try_encode_with_op_diff, hdr, hdg, hdb]
    · simp [encode_chunk, encode_chunk_bytes, try_run, hne, ha, hidx,
        try_encode_with_op_diff, hdr, hdg, hdb]
  · intro hout
    have hdiff : try_encode_with_op_diff st.previous_pixel pixel = none := by
      apply try_diff_none_of_channel
      rcases hout with h | h | h | h | h | h
      · exact Or.inl (diff_d_none_of_boundary _ _ (Or.inl h))
      · exact Or.inl (diff_d_none_of_boundary _ _ (Or.inr h))
      · exact Or.inr (Or.inl (diff_d_none_of_boundary _ _ (Or.inl h)))
      · exact Or.inr (Or.inl (diff_d_none_of_boundary _ _ (Or.inr h)))
      · exact Or.inr (Or.inr (diff_d_none_of_boundary _ _ (Or.inl h)))
      · exact Or.inr (Or.inr (diff_d_none_of_boundary _ _ (Or.inr h)))
    refine ⟨hdiff, ?_⟩
    have hrgb : try_encode_with_op_rgb st.previous_pixel pixel =
        some [254, pixel.r, pixel.g, pixel.b] := by
      simp [try_encode_with_op_rgb, ha]
    cases hl : try_encode_with_op_luma st.previous_pixel pixel <;>
      simp [encode_chunk, encode_chunk_bytes, try_run, hne, ha, hidx, hdiff, hl, hrgb]

/-- C6 witness: with previous pixel (10,10,10,255), the pixel (9,11,8,255)
has deltas -1, 1, -2 and is emitted as the Diff byte 94, while the pixel
(12,10,10,255) has red delta 2, fails the diff attempt and is emitted as a
Luma chunk. -/
theorem c6_diff_range_boundary_witness :
    (∃ byte, try_encode_with_op_diff ⟨10, 10, 10, 255⟩ ⟨9, 11, 8, 255⟩ = some byte ∧
      (encode_chunk
        ({ EncoderState.new ⟨2, 1, .Rgba, .Srgb⟩ with previous_pixel := ⟨10, 10, 10, 255⟩ })
        ⟨9, 11, 8, 255⟩ []).2.1 = [byte]) ∧
    (try_encode_with_op_diff ⟨10, 10, 10, 255⟩ ⟨12, 10, 10, 255⟩ = none ∧
      (encode_chunk
        ({ EncoderState.new ⟨2, 1, .Rgba, .Srgb⟩ with previous_pixel := ⟨10, 10, 10, 255⟩ })
        ⟨12, 10, 10, 255⟩ []).2.1 =
        (match try_encode_with_op_luma ⟨10, 10, 10, 255⟩ ⟨12, 10, 10, 255⟩ with
         | some bytes => bytes
         | none => [254, 12, 10, 10])) := by
  constructor
  · exact (c6_diff_range_boundary
      ({ EncoderState.new ⟨2, 1, .Rgba, .Srgb⟩ with previous_pixel := ⟨10, 10, 10, 255⟩ })
      ⟨9, 11, 8, 255⟩ [] (by decide) (by decide) (by decide)).1 (by decide)
  · exact (c6_diff_range_boundary
      ({ EncoderState.new ⟨2, 1, .Rgba, .Srgb⟩ with previous_pixel := ⟨10, 10, 10, 255⟩ })
      ⟨12, 10, 10, 255⟩ [] (by decide) (by decide) (by decide)).2 (by decide)

/-- C7: verify_eof_sequence on a stream holding at least 8 bytes consumes
exactly 8 of them, succeeds precisely when they are seven zero bytes followed
by the byte 1, fails with the end-marker error on any mismatch, and leaves
every byte beyond the eighth untouched; and a decode run whose header parse
and pixel loop have completed is exactly this check on the remaining
stream. -/
theorem c7_end_marker_check (z0 z1 z2 z3 z4 z5 z6 b : Nat) (ext : List Nat)
    (l : List Nat) (hdr : Header) (l1 : List Nat) (st : DecoderState)
    (out l2 : List Nat)
    (hh : decode_header l = .ok (hdr, l1))
    (hl : decode_loop (hdr.width * hdr.height % 4294967296)
            (hdr.width * hdr.height % 4294967296) (DecoderState.new hdr) l1 =
          .ok (st, out, l2)) :
    (verify_eof_sequence (z0 :: z1 :: z2 :: z3 :: z4 :: z5 :: z6 :: b :: ext) =
      if z0 = 0 ∧ z1 = 0 ∧ z2 = 0 ∧ z3 = 0 ∧ z4 = 0 ∧ z5 = 0 ∧ z6 = 0 ∧ b = 1
      then .ok ((), ext) else .error .InvalidEofSequence) ∧
    (decode l = match verify_eof_sequence l2 with
                | .error e => .error e
                | .ok (_, l3) => .ok (hdr, out, l3)) := by
  constructor
  · by_cases h7 : z0 = 0 ∧ z1 = 0 ∧ z2 = 0 ∧ z3 = 0 ∧ z4 = 0 ∧ z5 = 0 ∧ z6 = 0
    · by_cases hb : b = 1
      · obtain ⟨e0, e1, e2, e3, e4, e5, e6⟩ := h7
        subst e0 e1 e2 e3 e4 e5 e6
        subst hb
        simp [verify_eof_sequence]
      · simp only [verify_eof_sequence, if_pos h7]
        rw [if_neg hb, if_neg (by tauto)]
    · simp only [verify_eof_sequence]
      rw [if_neg h7, if_neg (by tauto)]
  · simp only [decode, hh, hl]

/-- C7 witness: on the minimal valid stream (zero-by-zero 4-channel header
followed by the end marker) the marker characterization and the decode
structure both hold at their concrete instances. -/
theorem c7_end_marker_check_witness :
    (verify_eof_sequence [0, 0, 0, 0, 0, 0, 0, 1] =
      if (0 : Nat) = 0 ∧ (0 : Nat) = 0 ∧ (0 : Nat) = 0 ∧ (0 : Nat) = 0 ∧
         (0 : Nat) = 0 ∧ (0 : Nat) = 0 ∧ (0 : Nat) = 0 ∧ (1 : Nat) = 1
      then .ok ((), ([] : List Nat)) else .error .InvalidEofSequence) ∧
    (decode [113, 111, 105, 102, 0, 0, 0, 0, 0, 0, 0, 0, 4, 0, 0, 0, 0, 0, 0, 0, 0, 1] =
      match verify_eof_sequence [0, 0, 0, 0, 0, 0, 0, 1] with
      | .error e => .error e
      | .ok (_, l3) =>
        .ok (⟨0, 0, .Rgba, .Srgb⟩, [], l3)) :=
  c7_end_marker_check 0 0 0 0 0 0 0 1 []
    [113, 111, 105, 102, 0, 0, 0, 0, 0, 0, 0, 0, 4, 0, 0, 0, 0, 0, 0, 0, 0, 1]
    ⟨0, 0, .Rgba, .Srgb⟩ [0, 0, 0, 0, 0, 0, 0, 1]
    (DecoderState.new ⟨0, 0, .Rgba, .Srgb⟩) [] [0, 0, 0, 0, 0, 0, 0, 1] rfl rfl

/-- Reading back a big-endian u32 recovers the value below 2^32. -/
theorem u32_round (n : Nat) (h : n < 4294967296) :
    u32_from_be (n / 16777216 % 256) (n / 65536 % 256) (n / 256 % 256) (n % 256) = n := by
  simp only [u32_from_be]
  omega

/-- decode_header inverts encode_header_bytes and consumes exactly the 14
header bytes. -/
theorem decode_header_encode_header (hdr : Header) (rest : List Nat)
    (hw : hdr.width < 4294967296) (hh : hdr.height < 4294967296) :
    decode_header (encode_header_bytes hdr ++ rest) = .ok (hdr, rest) := by
  obtain ⟨w, h, ch, cs⟩ := hdr
  have hwround := u32_round w hw
  have hhround := u32_round h hh
  cases ch <;> cases cs <;>
    simp [encode_header_bytes, u32_to_be, Channels.toByte, Colorspace.toByte,
      decode_header, Channels.from_byte, Colorspace.from_byte, hwround, hhround]

/-- C8: width and height are accepted without validation. For any header with
width 0 or height 0 (hence valid magic, channels and colorspace bytes by
construction) followed by any byte stream, decode reads no chunks, writes no
pixel bytes, immediately runs the end-marker check on the stream after the
header, and returns the header when it passes. -/
theorem c8_zero_size_accepted (hdr : Header) (rest : List Nat)
    (hw : hdr.width < 4294967296) (hh : hdr.height < 4294967296)
    (h0 : hdr.width = 0 ∨ hdr.height = 0) :
    decode (encode_header_bytes hdr ++ rest) =
      match verify_eof_sequence rest with
      | .error e => .error e
      | .ok (_, l3) => .ok (hdr, [], l3) := by
  have hn : hdr.width * hdr.height % 4294967296 = 0 := by
    rcases h0 with h0 | h0 <;> simp [h0]
  simp only [decode, decode_header_encode_header hdr rest hw hh, hn, decode_loop]
  simp

/-- C8 witness: a 0-by-7 3-channel header followed by the end marker decodes
to the header itself with an empty pixel buffer. -/
theorem c8_zero_size_accepted_witness :
    decode (encode_header_bytes ⟨0, 7, .Rgb, .Rgb⟩ ++ [0, 0, 0, 0, 0, 0, 0, 1]) =
      match verify_eof_sequence [0, 0, 0, 0, 0, 0, 0, 1] with
      | .error e => .error e
      | .ok (_, l3) => .ok (⟨0, 7, .Rgb, .Rgb⟩, [], l3) :=
  c8_zero_size_accepted ⟨0, 7, .Rgb, .Rgb⟩ [0, 0, 0, 0, 0, 0, 0, 1]
    (by decide) (by decide) (Or.inl rfl)

/-- chunks_exact_aux always produces exactly k chunks. -/
theorem chunks_exact_aux_length (n : Nat) :
    ∀ (k : Nat) (l : List Nat), (chunks_exact_aux n k l).length = k := by
  intro k
  induction k with
  | zero => intro l; rfl
  | succ k ih => intro l; simp [chunks_exact_aux, ih]

/-- chunks_exact_aux only looks at the first k * n elements. -/
theorem chunks_exact_aux_take (n : Nat) :
    ∀ (k : Nat) (l : List Nat),
      chunks_exact_aux n k (l.take (k * n)) = chunks_exact_aux n k l := by
  intro k
  induction k with
  | zero => intro l; rfl
  | succ k ih =>
    intro l
    simp only [chunks_exact_aux]
    have hmul : (k + 1) * n = k * n + n := by ring
    have h1 : List.take n (List.take ((k + 1) * n) l) = List.take n l := by
      rw [List.take_take, Nat.min_eq_left (by omega)]
    have h2 : List.drop n (List.take ((k + 1) * n) l) =
        List.take (k * n) (List.drop n l) := by
      rw [List.drop_take]
      congr 1
      omega
    rw [h1, h2, ih (l.drop n)]

/-- chunks_exact ignores the trailing len mod n bytes. -/
theorem chunks_exact_take (n : Nat) (l : List Nat) :
    chunks_exact n (l.take (l.length / n * n)) = chunks_exact n l := by
  cases n with
  | zero => simp [chunks_exact, chunks_exact_aux]
  | succ m =>
    have hle : l.length / (m + 1) * (m + 1) ≤ l.length := Nat.div_mul_le_self _ _
    have hlen : (l.take (l.length / (m + 1) * (m + 1))).length =
        l.length / (m + 1) * (m + 1) := by
      rw [List.length_take]
      omega
    unfold chunks_exact
    rw [hlen, Nat.mul_div_cancel _ (Nat.succ_pos m)]
    exact chunks_exact_aux_take (m + 1) (l.length / (m + 1)) l

/-- C10: encode_from_slice silently drops the trailing bytes that do not form
a complete pixel: it encodes exactly len / 3 (3-channel) or len / 4
(4-channel) pixels, and its output on any slice equals its output on the
slice truncated to those complete pixels. It is a total function of the
header and the slice alone, so no pixel-count check against width * height is
performed. -/
theorem c10_encode_from_slice_drops_tail (header : Header) (slice : List Nat) :
    (pixels_of_slice header.channels slice).length =
      slice.length / header.channels.toByte ∧
    encode_from_slice header slice =
      encode_from_slice header
        (slice.take (slice.length / header.channels.toByte * header.channels.toByte)) := by
  have hch : ∀ ch : Channels, pixels_of_slice ch
      (slice.take (slice.length / ch.toByte * ch.toByte)) = pixels_of_slice ch slice := by
    intro ch
    cases ch <;>
      simp only [pixels_of_slice, Channels.toByte, chunks_exact_take]
  constructor
  · cases hc : header.channels <;>
      simp [pixels_of_slice, chunks_exact, Channels.toByte, chunks_exact_aux_length]
  · unfold encode_from_slice
    rw [hch header.channels]

end Qoi
